import Mathlib

/-
Verification of the scheduler / concurrency core of the osdev-x kernel.

The development shallowly embeds the Rust sources:
  * src/task/sched.rs        (CpuQueue, CpuQueueInner, yield_cpu, next_ready_task,
                              least_loaded, enqueue)
  * kernel/src/task/process.rs (ProcessState, enqueue_to, enqueue_somewhere,
                              suspend, exit)
  * kernel/src/proc/wait.rs  (WaitStatus, Wait::wakeup_some, Wait::wait, sleep)
  * src/util.rs              (OneTimeInit)
  * src/arch/aarch64/cpu.rs  (IpiQueue)
  * src/lib/abi/src/error.rs (Error)

Machine integers (u64 tick counters, usize lengths) are modelled as Nat; the
only subtraction, `t - measure_time` in yield_cpu, is taken under the
monotonic-clock hypothesis `measure_time <= t`, where Nat subtraction and u64
wrapping subtraction agree.  A Rust `panic!`, `todo!`, failed `assert!` or
failed `unwrap` halts the faulting core; all fallible operations therefore
return `Except String`, where `.error msg` denotes that fatal halt (no
post-state is observable past it).  Rc-shared `Process` objects are modelled by
their process id together with system-wide maps from ids to the atomic fields
(`state`, `cpu_id`, wait bookkeeping) of the process structure.
-/

set_option autoImplicit false

namespace OsdevX

/-- Process scheduling states, from `ProcessState` in kernel/src/task/process.rs. -/
inductive ProcessState where
  | Ready
  | Running
  | Suspended
  | Terminated
deriving DecidableEq, Repr

/-- Wait-channel status of a process, from `WaitStatus` in kernel/src/proc/wait.rs. -/
inductive WaitStatus where
  | Interrupted
  | Pending
  | Done
deriving DecidableEq, Repr

/-- Error codes, from `abi::error::Error` (src/lib/abi/src/error.rs). -/
inductive Error where
  | OutOfMemory
  | InvalidMemoryOperation
  | AlreadyExists
  | TimedOut
  | InvalidArgument
  | DoesNotExist
  | IsADirectory
  | InvalidFile
deriving DecidableEq, Repr

/-- Process identifier (`pub type ProcessId = usize` in task/mod.rs). -/
abbrev ProcessId := Nat

/-- `true` exactly on the fatal-halt (`panic`) branch of a computation. -/
def isErrB {ε α : Type} : Except ε α → Bool
  | .error _ => true
  | .ok _ => false

/- ## One-time initialization cell (src/util.rs, OneTimeInit) -/

/-- `OneTimeInit<T>` from src/util.rs: an "initialized" flag (the `AtomicBool
`state`) plus the possibly-written value (`value: UnsafeCell<MaybeUninit<T>>`,
modelled as `Option` — `none` is the uninitialized bit pattern). -/
structure OneTimeInit (α : Type) where
  state : Bool
  value : Option α
deriving DecidableEq, Repr

/-- `OneTimeInit::new`: starts with the flag clear and no value written. -/
def OneTimeInit.new {α : Type} : OneTimeInit α := ⟨false, none⟩

/-- `OneTimeInit::is_initialized`. -/
def OneTimeInit.is_initialized {α : Type} (c : OneTimeInit α) : Bool := c.state

/-- `OneTimeInit::init`: compare-and-swap of the flag from `false` to `true`;
on failure (flag already set) the source panics ("Double initialization of
OneTimeInit"), on success the value is written. -/
def OneTimeInit.init {α : Type} (c : OneTimeInit α) (v : α) : Except String (OneTimeInit α) :=
  if c.state then .error ("Double initialization of OneTimeInit")
  else .ok ⟨true, some v⟩

/-- `OneTimeInit::get`: panics when the flag is still clear, otherwise reads the
value (`assume_init_ref`; the `none` branch is the unreachable uninitialized
read, modelled as a halt as well). -/
def OneTimeInit.get {α : Type} (c : OneTimeInit α) : Except String α :=
  if c.state then
    match c.value with
    | some v => .ok v
    | none => .error ("uninitialized read")
  else .error ("Attempt to dereference an uninitialized value")

/- ## Per-core IPI inbox (src/arch/aarch64/cpu.rs, IpiQueue) -/

/-- `CpuMessage` from src/arch/mod.rs; the only defined message kind. -/
inductive CpuMessage where
  | Panic
deriving DecidableEq, Repr

/-- `IpiQueue` from src/arch/aarch64/cpu.rs: one lock-protected message slot. -/
structure IpiQueue where
  data : Option CpuMessage
deriving DecidableEq, Repr

/-- `IpiQueue::new`. -/
def IpiQueue.new : IpiQueue := ⟨none⟩

/-- `IpiQueue::push`: `assert!(lock.is_none())` then `lock.replace(msg)`; the
failed assertion on an occupied slot is a fatal halt. -/
def IpiQueue.push (q : IpiQueue) (msg : CpuMessage) : Except String IpiQueue :=
  if q.data.isSome then .error ("assertion failed: slot is occupied")
  else .ok ⟨some msg⟩

/-- `IpiQueue::pop`: `lock.take()` — returns the pending message (if any) and
leaves the slot empty. -/
def IpiQueue.pop (q : IpiQueue) : Option CpuMessage × IpiQueue :=
  (q.data, ⟨none⟩)

/- ## sleep (kernel/src/proc/wait.rs) -/

/-- The `match` in `sleep` (kernel/src/proc/wait.rs:147-156) applied to the
result of `SLEEP_NOTIFY.wait(Some(deadline))` together with the caller's
`remaining` out-parameter: `Err(TimedOut)` zeroes `remaining` and succeeds,
`Ok(_)` is the fatal invariant violation, any other error passes through with
`remaining` untouched. -/
def sleep_dispatch (waitResult : Except Error Unit) (remaining : Nat) :
    Except String (Except Error Unit × Nat) :=
  match waitResult with
  | .error .TimedOut => .ok (.ok (), 0)
  | .ok _ => .error ("This should not happen")
  | .error e => .ok (.error e, remaining)

/- ## Per-CPU run queues and the process state machine
(src/task/sched.rs and kernel/src/task/process.rs) -/

/-- `CpuQueueInner` plus `CpuQueueStats` from src/task/sched.rs: the currently
running process (`None` when idling), the FIFO of queued processes, and the
tick statistics (`idle_time`, `cpu_time`, `measure_time`). -/
structure CpuQueueInner where
  current : Option ProcessId
  queue : List ProcessId
  idleTime : Nat
  cpuTime : Nat
  measureTime : Nat
deriving DecidableEq, Repr

/-- The shared-memory state the scheduler core manipulates: the per-process
atomic fields of `Process` (`state`, `cpu_id`, and the lock-protected
`wait_status`), the global `QUEUES` table (index = CPU id), and the global
`TICK_LIST` of (process, absolute deadline) pairs. -/
structure Kernel where
  procState : ProcessId → ProcessState
  procCpu : ProcessId → Nat
  waitStatus : ProcessId → WaitStatus
  queues : List CpuQueueInner
  tickList : List (ProcessId × Nat)

/-- Store to the `state` field of process `p` (`AtomicProcessState::swap` /
`store`; the old value is read by the callers separately). -/
def Kernel.setProcState (k : Kernel) (p : ProcessId) (s : ProcessState) : Kernel :=
  { k with procState := fun q => if q = p then s else k.procState q }

/-- Store to the `wait_status` field of process `p`.

Modelled from the spec: `Process::set_wait_status` is called from
kernel/src/proc/wait.rs (`proc.set_wait_status(WaitStatus::Done)`) but its
definition is absent from the tree; per the spec a wakeup "sets the wait
outcome to `Done`", so the function is the plain setter of the per-process
wait-status field. -/
def Kernel.setWaitStatus (k : Kernel) (p : ProcessId) (s : WaitStatus) : Kernel :=
  { k with waitStatus := fun q => if q = p then s else k.waitStatus q }

/-- `CpuQueueInner::next_ready_task` (src/task/sched.rs:68-83): pop entries
from the FIFO front; a `Ready` entry is returned, a `Suspended` entry is
silently dropped, and any other state is a fatal invariant violation
("Unexpected process state in CpuQueue").  Returns the popped process (or
`none` on an exhausted queue) together with the remaining FIFO. -/
def next_ready_task (ps : ProcessId → ProcessState) :
    List ProcessId → Except String (Option ProcessId × List ProcessId)
  | [] => .ok (none, [])
  | task :: rest =>
    match ps task with
    | .Ready => .ok (some task, rest)
    | .Suspended => next_ready_task ps rest
    | _ => .error ("Unexpected process state in CpuQueue")

/-- `CpuQueue::yield_cpu` (src/task/sched.rs:127-164) on queue `i` with the
counter-timer reading `t`: accumulate `t - measure_time` into `cpu_time` when a
process is current and into `idle_time` otherwise, push the current process (if
any) to the FIFO tail, pop the next ready task, and make it current.  The final
context switch leaves the shared state untouched and is not modelled.  Note
that this function writes no process `state` or `cpu_id` field. -/
def yield_cpu (k : Kernel) (i t : Nat) : Except String Kernel :=
  match k.queues.get? i with
  | none => .error ("queue index out of range")
  | some q =>
    let delta := t - q.measureTime
    let q1 : CpuQueueInner :=
      match q.current with
      | some current =>
        { q with measureTime := t, queue := q.queue ++ [current], cpuTime := q.cpuTime + delta }
      | none =>
        { q with measureTime := t, idleTime := q.idleTime + delta }
    match next_ready_task k.procState q1.queue with
    | .error e => .error e
    | .ok (next, rest) =>
      .ok { k with queues := k.queues.set i { q1 with current := next, queue := rest } }

/-- The `state` of `p` observed after `yield_cpu` (on the fatal-halt branch the
last written value, i.e. the value before the call, is reported). -/
def procState_after_yield (k : Kernel) (i t : Nat) (p : ProcessId) : ProcessState :=
  match yield_cpu k i t with
  | .ok kAfter => kAfter.procState p
  | .error _ => k.procState p

/-- `Process::enqueue_to` (kernel/src/task/process.rs:130-140): swap the state
to `Ready`; when the previous state was not `Suspended` the source hits
`todo!("Handle attempt to enqueue an already queued/running/terminated
process")`, a fatal halt; otherwise `CpuQueue::enqueue` appends the process to
the FIFO tail of queue `i`. -/
def enqueue_to (k : Kernel) (p : ProcessId) (i : Nat) : Except String Kernel :=
  let currentState := k.procState p
  let k1 := k.setProcState p .Ready
  if currentState ≠ .Suspended then
    .error ("Handle attempt to enqueue an already queued/running/terminated process")
  else
    match k1.queues.get? i with
    | none => .error ("queue index out of range")
    | some q => .ok { k1 with queues := k1.queues.set i { q with queue := q.queue ++ [p] } }

/-- The accumulator loop of `Iterator::min_by_key` over the enumerated queue
table, as used by `CpuQueue::least_loaded` (src/task/sched.rs:230-234): scan
the remaining `(index, queue)` pairs, replacing the best pair exactly when a
strictly smaller FIFO length is seen (so the first minimum wins, as in Rust).
`i` is the index of the head of `rest`. -/
def least_loaded_fold (bi : Nat) (bq : CpuQueueInner) (i : Nat) :
    List CpuQueueInner → Nat × CpuQueueInner
  | [] => (bi, bq)
  | q :: rest =>
    if q.queue.length < bq.queue.length then least_loaded_fold i q (i + 1) rest
    else least_loaded_fold bi bq (i + 1) rest

/-- `CpuQueue::least_loaded`: `queues.iter().enumerate().min_by_key(|(_, q)|
q.len())` — `none` exactly when the queue table is empty. -/
def least_loaded (qs : List CpuQueueInner) : Option (Nat × CpuQueueInner) :=
  match qs with
  | [] => none
  | q :: rest => some (least_loaded_fold 0 q 1 rest)

/-- `Process::enqueue_somewhere` (kernel/src/task/process.rs:115-123):
`CpuQueue::least_loaded().unwrap()` (the failed unwrap on an empty queue table
is a fatal halt) followed by `enqueue_to`; returns the selected index. -/
def enqueue_somewhere (k : Kernel) (p : ProcessId) : Except String (Kernel × Nat) :=
  match least_loaded k.queues with
  | none => .error ("unwrap of None: empty queue table")
  | some (index, _) =>
    match enqueue_to k p index with
    | .error e => .error e
    | .ok k1 => .ok (k1, index)

/-- `Process::suspend` (kernel/src/task/process.rs:153-178): swap the state to
`Suspended` and match on the previous state — `Ready` and `Suspended` return
doing nothing further, `Terminated` panics ("Process is terminated"), and
`Running` yields the local CPU when the owning core is the local one
(`localCpu`, whose queue is `queues[localCpu]`) and is `todo!()` otherwise.
The returned flag is `true` when the call went through `yield_cpu`. -/
def suspend (k : Kernel) (p : ProcessId) (localCpu t : Nat) :
    Except String (Kernel × Bool) :=
  let currentState := k.procState p
  let k1 := k.setProcState p .Suspended
  match currentState with
  | .Ready => .ok (k1, false)
  | .Suspended => .ok (k1, false)
  | .Terminated => .error ("Process is terminated")
  | .Running =>
    if k.procCpu p = localCpu then
      match yield_cpu k1 localCpu t with
      | .error e => .error e
      | .ok k2 => .ok (k2, true)
    else .error ("todo: suspending a process running on another CPU")

/-- `Process::exit` (kernel/src/task/process.rs:203-214): swap the state to
`Terminated` and match on the previous state — `Suspended` returns, `Ready` and
`Terminated` are `todo!()` fatal halts, `Running` yields the local CPU. -/
def exit (k : Kernel) (p : ProcessId) (localCpu t : Nat) : Except String Kernel :=
  let currentState := k.procState p
  let k1 := k.setProcState p .Terminated
  match currentState with
  | .Suspended => .ok k1
  | .Ready => .error ("todo: exit of a Ready process")
  | .Running => yield_cpu k1 localCpu t
  | .Terminated => .error ("todo: exit of a Terminated process")

/- ## Wait channel wakeup (kernel/src/proc/wait.rs) -/

/-- The `TICK_LIST` cursor scan in `Wait::wakeup_some` (wait.rs:52-64): remove
the first entry whose process id equals `pid` (the loop breaks after one
removal). -/
def remove_tick_entry (pid : ProcessId) : List (ProcessId × Nat) → List (ProcessId × Nat)
  | [] => []
  | e :: rest => if e.1 = pid then rest else e :: remove_tick_entry pid rest

/-- `Wait::wakeup_some` (kernel/src/proc/wait.rs:45-77) on a channel whose FIFO
is `fifo`: while the limit is nonzero and the FIFO nonempty, pop the front
process, remove its pending `TICK_LIST` entry, set its wait status to `Done`
and re-enqueue it via `enqueue_somewhere`.  Returns the final state, the
remaining channel FIFO, and the count of processes woken. -/
def wakeup_some (k : Kernel) (fifo : List ProcessId) (limit : Nat) :
    Except String (Kernel × List ProcessId × Nat) :=
  match limit, fifo with
  | 0, rest => .ok (k, rest, 0)
  | _ + 1, [] => .ok (k, [], 0)
  | l + 1, proc :: rest =>
    let k1 := { k with tickList := remove_tick_entry proc k.tickList }
    let k2 := k1.setWaitStatus proc .Done
    match enqueue_somewhere k2 proc with
    | .error e => .error e
    | .ok (k3, _) =>
      match wakeup_some k3 rest l with
      | .error e => .error e
      | .ok (k4, fifo4, count) => .ok (k4, fifo4, count + 1)

/-- `usize::MAX` (64-bit target), the limit used by `Wait::wakeup_all`. -/
def USIZE_MAX : Nat := 2 ^ 64 - 1

/-- `Wait::wakeup_all`: `wakeup_some(usize::MAX)`. -/
def wakeup_all (k : Kernel) (fifo : List ProcessId) : Except String (Kernel × List ProcessId × Nat) :=
  wakeup_some k fifo USIZE_MAX

/-- `Wait::wakeup_one`: `wakeup_some(1)`. -/
def wakeup_one (k : Kernel) (fifo : List ProcessId) : Except String (Kernel × List ProcessId × Nat) :=
  wakeup_some k fifo 1

/- ## Theorems: C7, C9, C8 -/

/-- Claim C7: a `OneTimeInit` cell starts uninitialized; the first `init(value)`
succeeds and stores the value, any subsequent `init` on the resulting cell
traps (of two sequential `init` calls exactly one succeeds); `get` traps before
a successful `init`, and after `init(value)` every `get` returns that value. -/
theorem one_time_init_c7 {α : Type} (v w : α) :
    (OneTimeInit.new : OneTimeInit α).is_initialized = false
    ∧ OneTimeInit.get (OneTimeInit.new : OneTimeInit α)
        = .error ("Attempt to dereference an uninitialized value")
    ∧ OneTimeInit.init (OneTimeInit.new : OneTimeInit α) v = .ok ⟨true, some v⟩
    ∧ OneTimeInit.init (⟨true, some v⟩ : OneTimeInit α) w
        = .error ("Double initialization of OneTimeInit")
    ∧ OneTimeInit.get (⟨true, some v⟩ : OneTimeInit α) = .ok v := by
  refine ⟨rfl, rfl, rfl, rfl, rfl⟩

/-- Claim C9: the per-core IPI inbox holds at most one message: a push on the
empty inbox stores the message, a push on an occupied inbox is a fatal
invariant violation, and pop removes and returns the pending message (or
returns none), leaving the inbox empty. -/
theorem ipi_queue_c9 (m mPrev : CpuMessage) :
    IpiQueue.push ⟨none⟩ m = .ok ⟨some m⟩
    ∧ IpiQueue.push ⟨some mPrev⟩ m = .error ("assertion failed: slot is occupied")
    ∧ IpiQueue.pop ⟨some m⟩ = (some m, ⟨none⟩)
    ∧ IpiQueue.pop ⟨none⟩ = (none, ⟨none⟩) := by
  refine ⟨rfl, rfl, rfl, rfl⟩

/-- Claim C8: `sleep` resolves successfully only through the `TimedOut` path:
when the inner wait returns `Err(TimedOut)` the remaining duration is set to
zero and `Ok(())` returned; when the inner wait returns `Ok` that is a fatal
invariant violation; and every successful return of `sleep` has a `TimedOut`
wait result behind it with remaining = 0. -/
theorem sleep_c8 (r : Except Error Unit) (rem n : Nat) :
    sleep_dispatch (.error .TimedOut) rem = .ok (.ok (), 0)
    ∧ sleep_dispatch (.ok ()) rem = .error ("This should not happen")
    ∧ (sleep_dispatch r rem = .ok (.ok (), n) → r = .error .TimedOut ∧ n = 0) := by
  refine ⟨rfl, rfl, ?_⟩
  intro h
  match r with
  | .ok () => exact absurd h (by simp [sleep_dispatch])
  | .error e =>
    cases e <;> simp_all [sleep_dispatch]

/-- Witness for C8 at a concrete wait result. -/
theorem sleep_c8_witness :
    sleep_dispatch (.error .TimedOut) 7 = .ok (.ok (), 0)
    ∧ sleep_dispatch (.ok ()) 7 = .error ("This should not happen")
    ∧ (sleep_dispatch (.error .TimedOut) 7 = .ok (.ok (), 0)
        → (.error .TimedOut : Except Error Unit) = .error .TimedOut ∧ (0 : Nat) = 0) :=
  sleep_c8 (.error .TimedOut) 7 0

/- ## Helper lemmas about the scheduler operations -/

/-- `enqueue_to` on a process that is not `Suspended` is the `todo!()` halt. -/
lemma enqueue_to_not_suspended (k : Kernel) (p : ProcessId) (i : Nat)
    (h : k.procState p ≠ .Suspended) :
    enqueue_to k p i
      = .error ("Handle attempt to enqueue an already queued/running/terminated process") := by
  simp [enqueue_to, h]

/-- `yield_cpu` never writes a process `state` field (the source only moves Rc
handles between the FIFO and the `current` slot). -/
lemma yield_cpu_preserves_procState (k : Kernel) (i t : Nat) (k1 : Kernel)
    (h : yield_cpu k i t = .ok k1) : k1.procState = k.procState := by
  unfold yield_cpu at h
  cases hq : k.queues.get? i with
  | none => rw [hq] at h; exact absurd h (by simp)
  | some q =>
    rw [hq] at h
    simp only at h
    cases hn : next_ready_task k.procState
        (match q.current with
          | some current =>
            { q with measureTime := t, queue := q.queue ++ [current],
                     cpuTime := q.cpuTime + (t - q.measureTime) }
          | none =>
            { q with measureTime := t, idleTime := q.idleTime + (t - q.measureTime) }).queue with
    | error e => rw [hn] at h; exact absurd h (by simp)
    | ok r =>
      rw [hn] at h
      cases h₂ : r with
      | mk next rest =>
        subst h₂
        simp only [Except.ok.injEq] at h
        subst h
        rfl

/-- The observed state after `yield_cpu` is the state before it, for every
process. -/
lemma procState_after_yield_eq (k : Kernel) (i t : Nat) (p : ProcessId) :
    procState_after_yield k i t p = k.procState p := by
  unfold procState_after_yield
  cases hy : yield_cpu k i t with
  | error e => rfl
  | ok k1 =>
    show k1.procState p = k.procState p
    rw [yield_cpu_preserves_procState k i t k1 hy]

/-- `enqueue_to` on a `Suspended` process: the state becomes `Ready` and the
process is appended to the FIFO tail of the target queue. -/
lemma enqueue_to_suspended (k : Kernel) (p : ProcessId) (i : Nat) (q : CpuQueueInner)
    (hq : k.queues.get? i = some q) (h : k.procState p = .Suspended) :
    enqueue_to k p i = .ok { k.setProcState p .Ready with
      queues := k.queues.set i { q with queue := q.queue ++ [p] } } := by
  have hq2 : k.queues[i]? = some q := by rw [← List.get?_eq_getElem?]; exact hq
  simp [enqueue_to, Kernel.setProcState, h, hq2]

/-- The `min_by_key` accumulator loop of `least_loaded` returns an indexed
entry of the full table `qs` (or keeps the initial best, which is one) whose
FIFO length is a lower bound of the initial best and of every scanned entry.
`rest` must be the suffix of `qs` that starts at position `i`. -/
lemma least_loaded_fold_spec (qs : List CpuQueueInner) :
    ∀ (rest : List CpuQueueInner) (bi i : Nat) (bq : CpuQueueInner),
      qs.get? bi = some bq →
      (∀ j, rest.get? j = qs.get? (i + j)) →
      qs.get? (least_loaded_fold bi bq i rest).1 = some (least_loaded_fold bi bq i rest).2
      ∧ (least_loaded_fold bi bq i rest).2.queue.length ≤ bq.queue.length
      ∧ ∀ x ∈ rest, (least_loaded_fold bi bq i rest).2.queue.length ≤ x.queue.length
  | [], bi, i, bq, hb, _ => ⟨hb, le_refl _, by intro x hx; cases hx⟩
  | q :: tail, bi, i, bq, hb, hr => by
    have hq : qs.get? i = some q := by
      have h0 := hr 0
      rw [Nat.add_zero] at h0
      exact h0.symm
    have hrt : ∀ j, tail.get? j = qs.get? (i + 1 + j) := by
      intro j
      have hj := hr (j + 1)
      have harith : i + (j + 1) = i + 1 + j := by omega
      rw [harith] at hj
      simpa using hj
    by_cases hlt : q.queue.length < bq.queue.length
    · have ih := least_loaded_fold_spec qs tail i (i + 1) q hq hrt
      simp only [least_loaded_fold, if_pos hlt]
      refine ⟨ih.1, le_trans ih.2.1 (le_of_lt hlt), ?_⟩
      intro x hx
      rcases List.mem_cons.mp hx with hx | hx
      · subst hx; exact ih.2.1
      · exact ih.2.2 x hx
    · have ih := least_loaded_fold_spec qs tail bi (i + 1) bq hb hrt
      simp only [least_loaded_fold, if_neg hlt]
      refine ⟨ih.1, ih.2.1, ?_⟩
      intro x hx
      rcases List.mem_cons.mp hx with hx | hx
      · subst hx; exact le_trans ih.2.1 (Nat.le_of_not_lt hlt)
      · exact ih.2.2 x hx

/-- `least_loaded` on a nonempty table returns an entry of the table whose
FIFO length is a lower bound of every entry of the table. -/
lemma least_loaded_spec (qs : List CpuQueueInner) (hne : qs ≠ []) :
    ∃ i q, least_loaded qs = some (i, q) ∧ qs.get? i = some q
      ∧ ∀ x ∈ qs, q.queue.length ≤ x.queue.length := by
  match qs, hne with
  | q0 :: rest, _ =>
    have hb : (q0 :: rest).get? 0 = some q0 := rfl
    have hr : ∀ j, rest.get? j = (q0 :: rest).get? (1 + j) := by
      intro j
      rw [Nat.add_comm]
      rfl
    have hsp := least_loaded_fold_spec (q0 :: rest) rest 0 1 q0 hb hr
    refine ⟨(least_loaded_fold 0 q0 1 rest).1, (least_loaded_fold 0 q0 1 rest).2,
      by simp [least_loaded], hsp.1, ?_⟩
    intro x hx
    rcases List.mem_cons.mp hx with hx | hx
    · subst hx; exact hsp.2.1
    · exact hsp.2.2 x hx

/- ## Theorems: C3, C2, C10 -/

/-- Claim C3: enqueueing a process (`enqueue_to`, and `enqueue_somewhere` which
delegates to it) performs the transition `Suspended -> Ready` and appends the
process to the target FIFO; when the state at the call is not `Suspended` the
call is a fatal halt (`todo!()`), so a process cannot be enqueued twice. -/
theorem enqueue_c3 (k : Kernel) (p : ProcessId) (i : Nat) (q : CpuQueueInner)
    (hq : k.queues.get? i = some q) :
    (k.procState p = .Suspended →
        enqueue_to k p i = .ok { k.setProcState p .Ready with
          queues := k.queues.set i { q with queue := q.queue ++ [p] } })
    ∧ (k.procState p ≠ .Suspended → isErrB (enqueue_to k p i) = true)
    ∧ (k.procState p ≠ .Suspended → isErrB (enqueue_somewhere k p) = true) := by
  refine ⟨?_, ?_, ?_⟩
  · intro h
    exact enqueue_to_suspended k p i q hq h
  · intro h
    rw [enqueue_to_not_suspended k p i h]
    rfl
  · intro h
    unfold enqueue_somewhere
    cases hl : least_loaded k.queues with
    | none => rfl
    | some r =>
      cases r with
      | mk j qj =>
        simp [enqueue_to_not_suspended k p j h, isErrB]

/-- Witness for C3 on a one-queue kernel with process 1 suspended. -/
theorem enqueue_c3_witness :
    (Kernel.mk (fun _ => .Suspended) (fun _ => 0) (fun _ => .Pending)
        [⟨none, [], 0, 0, 0⟩] []).queues.get? 0 = some ⟨none, [], 0, 0, 0⟩
    ∧ ((Kernel.mk (fun _ => .Suspended) (fun _ => 0) (fun _ => .Pending)
          [⟨none, [], 0, 0, 0⟩] []).procState 1 = .Suspended →
        enqueue_to (Kernel.mk (fun _ => .Suspended) (fun _ => 0) (fun _ => .Pending)
            [⟨none, [], 0, 0, 0⟩] []) 1 0
          = .ok { (Kernel.mk (fun _ => .Suspended) (fun _ => 0) (fun _ => .Pending)
                [⟨none, [], 0, 0, 0⟩] []).setProcState 1 .Ready with
              queues := (Kernel.mk (fun _ => .Suspended) (fun _ => 0) (fun _ => .Pending)
                [⟨none, [], 0, 0, 0⟩] []).queues.set 0 ⟨none, [] ++ [1], 0, 0, 0⟩ })
    ∧ ((Kernel.mk (fun _ => .Suspended) (fun _ => 0) (fun _ => .Pending)
          [⟨none, [], 0, 0, 0⟩] []).procState 1 ≠ .Suspended →
        isErrB (enqueue_to (Kernel.mk (fun _ => .Suspended) (fun _ => 0) (fun _ => .Pending)
          [⟨none, [], 0, 0, 0⟩] []) 1 0) = true)
    ∧ ((Kernel.mk (fun _ => .Suspended) (fun _ => 0) (fun _ => .Pending)
          [⟨none, [], 0, 0, 0⟩] []).procState 1 ≠ .Suspended →
        isErrB (enqueue_somewhere (Kernel.mk (fun _ => .Suspended) (fun _ => 0)
          (fun _ => .Pending) [⟨none, [], 0, 0, 0⟩] []) 1) = true) :=
  ⟨rfl, enqueue_c3 _ 1 0 ⟨none, [], 0, 0, 0⟩ rfl⟩

/-- Claim C2: `Terminated` is absorbing — on a process observed `Terminated`,
`enqueue_to`, `enqueue_somewhere`, `suspend` and `exit` are all fatal halts (no
completed operation ever leaves the process in another state), and a queue
dispatch step (`yield_cpu`) never changes any process state, so the process
stays `Terminated` forever. -/
theorem terminated_absorbing_c2 (k : Kernel) (p : ProcessId) (i localCpu t : Nat)
    (h : k.procState p = .Terminated) :
    isErrB (enqueue_to k p i) = true
    ∧ isErrB (enqueue_somewhere k p) = true
    ∧ isErrB (suspend k p localCpu t) = true
    ∧ isErrB (exit k p localCpu t) = true
    ∧ procState_after_yield k i t p = .Terminated := by
  have hne : k.procState p ≠ .Suspended := by rw [h]; intro hc; cases hc
  refine ⟨?_, ?_, ?_, ?_, ?_⟩
  · rw [enqueue_to_not_suspended k p i hne]; rfl
  · unfold enqueue_somewhere
    cases hl : least_loaded k.queues with
    | none => rfl
    | some r =>
      cases r with
      | mk j qj =>
        simp [enqueue_to_not_suspended k p j hne, isErrB]
  · simp [suspend, h, isErrB]
  · simp [exit, h, isErrB]
  · rw [procState_after_yield_eq k i t p, h]

/-- Witness for C2 on a kernel in which process 1 is terminated. -/
theorem terminated_absorbing_c2_witness :
    (Kernel.mk (fun n => if n = 1 then .Terminated else .Suspended) (fun _ => 0)
        (fun _ => .Pending) [⟨none, [], 0, 0, 0⟩] []).procState 1 = .Terminated
    ∧ isErrB (enqueue_to (Kernel.mk (fun n => if n = 1 then .Terminated else .Suspended)
        (fun _ => 0) (fun _ => .Pending) [⟨none, [], 0, 0, 0⟩] []) 1 0) = true
    ∧ isErrB (enqueue_somewhere (Kernel.mk (fun n => if n = 1 then .Terminated else .Suspended)
        (fun _ => 0) (fun _ => .Pending) [⟨none, [], 0, 0, 0⟩] []) 1) = true
    ∧ isErrB (suspend (Kernel.mk (fun n => if n = 1 then .Terminated else .Suspended)
        (fun _ => 0) (fun _ => .Pending) [⟨none, [], 0, 0, 0⟩] []) 1 0 5) = true
    ∧ isErrB (exit (Kernel.mk (fun n => if n = 1 then .Terminated else .Suspended)
        (fun _ => 0) (fun _ => .Pending) [⟨none, [], 0, 0, 0⟩] []) 1 0 5) = true
    ∧ procState_after_yield (Kernel.mk (fun n => if n = 1 then .Terminated else .Suspended)
        (fun _ => 0) (fun _ => .Pending) [⟨none, [], 0, 0, 0⟩] []) 0 5 1 = .Terminated :=
  ⟨rfl, terminated_absorbing_c2 _ 1 0 0 5 rfl⟩

/-- Claim C10 (implicit): `suspend` on a process whose state is `Ready` or
`Suspended` neither traps nor yields — it swaps the state to `Suspended` and
returns, leaving every queue FIFO untouched; a `Suspended` entry left in a
FIFO is then silently discarded by the next dispatch step
(`next_ready_task`). -/
theorem suspend_ready_c10 (k : Kernel) (p : ProcessId) (localCpu t : Nat)
    (rest : List ProcessId)
    (h : k.procState p = .Ready ∨ k.procState p = .Suspended) :
    suspend k p localCpu t = .ok (k.setProcState p .Suspended, false)
    ∧ (k.setProcState p .Suspended).queues = k.queues
    ∧ next_ready_task (k.setProcState p .Suspended).procState (p :: rest)
        = next_ready_task (k.setProcState p .Suspended).procState rest := by
  refine ⟨?_, rfl, ?_⟩
  · rcases h with h | h <;> simp [suspend, h]
  · have hp : (k.setProcState p .Suspended).procState p = .Suspended := by
      simp [Kernel.setProcState]
    simp [next_ready_task, hp]

/-- Witness for C10: suspending the ready process 1 on a kernel whose queue 0
holds it, then observing the next dispatch step discard it. -/
theorem suspend_ready_c10_witness :
    ((Kernel.mk (fun _ => .Ready) (fun _ => 0) (fun _ => .Pending)
        [⟨none, [1], 0, 0, 0⟩] []).procState 1 = .Ready
      ∨ (Kernel.mk (fun _ => .Ready) (fun _ => 0) (fun _ => .Pending)
        [⟨none, [1], 0, 0, 0⟩] []).procState 1 = .Suspended)
    ∧ (suspend (Kernel.mk (fun _ => .Ready) (fun _ => 0) (fun _ => .Pending)
          [⟨none, [1], 0, 0, 0⟩] []) 1 0 5
        = .ok ((Kernel.mk (fun _ => .Ready) (fun _ => 0) (fun _ => .Pending)
            [⟨none, [1], 0, 0, 0⟩] []).setProcState 1 .Suspended, false)
      ∧ ((Kernel.mk (fun _ => .Ready) (fun _ => 0) (fun _ => .Pending)
          [⟨none, [1], 0, 0, 0⟩] []).setProcState 1 .Suspended).queues
          = (Kernel.mk (fun _ => .Ready) (fun _ => 0) (fun _ => .Pending)
            [⟨none, [1], 0, 0, 0⟩] []).queues
      ∧ next_ready_task ((Kernel.mk (fun _ => .Ready) (fun _ => 0) (fun _ => .Pending)
            [⟨none, [1], 0, 0, 0⟩] []).setProcState 1 .Suspended).procState (1 :: [])
          = next_ready_task ((Kernel.mk (fun _ => .Ready) (fun _ => 0) (fun _ => .Pending)
            [⟨none, [1], 0, 0, 0⟩] []).setProcState 1 .Suspended).procState []) :=
  ⟨Or.inl rfl, suspend_ready_c10 _ 1 0 5 [] (Or.inl rfl)⟩

/-- Claim C6: with an initialized (nonempty) queue table, `enqueue_somewhere`
enqueues the process to, and returns the index of, the queue selected by
`least_loaded`, whose FIFO length is less than or equal to every other queue's
FIFO length at the instant of selection.  (The process must be `Suspended`,
as `enqueue_to` requires.) -/
theorem enqueue_somewhere_c6 (k : Kernel) (p : ProcessId)
    (hne : k.queues ≠ []) (hs : k.procState p = .Suspended) :
    ∃ i q, least_loaded k.queues = some (i, q)
      ∧ k.queues.get? i = some q
      ∧ (∀ x ∈ k.queues, q.queue.length ≤ x.queue.length)
      ∧ enqueue_somewhere k p = .ok ({ k.setProcState p .Ready with
          queues := k.queues.set i { q with queue := q.queue ++ [p] } }, i) := by
  obtain ⟨i, q, hll, hget, hmin⟩ := least_loaded_spec k.queues hne
  refine ⟨i, q, hll, hget, hmin, ?_⟩
  unfold enqueue_somewhere
  simp [hll, enqueue_to_suspended k p i q hget hs]

/-- Witness for C6, the placement scenario of the spec: queue 0 holds three
ready processes, queue 1 holds one; the newly enqueued process lands in
queue 1. -/
theorem enqueue_somewhere_c6_witness :
    (Kernel.mk (fun _ => .Suspended) (fun _ => 0) (fun _ => .Pending)
        [⟨none, [5, 6, 7], 0, 0, 0⟩, ⟨none, [8], 0, 0, 0⟩] []).queues ≠ []
    ∧ (Kernel.mk (fun _ => .Suspended) (fun _ => 0) (fun _ => .Pending)
        [⟨none, [5, 6, 7], 0, 0, 0⟩, ⟨none, [8], 0, 0, 0⟩] []).procState 1 = .Suspended
    ∧ (∃ i q, least_loaded (Kernel.mk (fun _ => .Suspended) (fun _ => 0) (fun _ => .Pending)
          [⟨none, [5, 6, 7], 0, 0, 0⟩, ⟨none, [8], 0, 0, 0⟩] []).queues = some (i, q)
        ∧ (Kernel.mk (fun _ => .Suspended) (fun _ => 0) (fun _ => .Pending)
            [⟨none, [5, 6, 7], 0, 0, 0⟩, ⟨none, [8], 0, 0, 0⟩] []).queues.get? i = some q
        ∧ (∀ x ∈ (Kernel.mk (fun _ => .Suspended) (fun _ => 0) (fun _ => .Pending)
            [⟨none, [5, 6, 7], 0, 0, 0⟩, ⟨none, [8], 0, 0, 0⟩] []).queues,
              q.queue.length ≤ x.queue.length)
        ∧ enqueue_somewhere (Kernel.mk (fun _ => .Suspended) (fun _ => 0) (fun _ => .Pending)
            [⟨none, [5, 6, 7], 0, 0, 0⟩, ⟨none, [8], 0, 0, 0⟩] []) 1
          = .ok ({ (Kernel.mk (fun _ => .Suspended) (fun _ => 0) (fun _ => .Pending)
                [⟨none, [5, 6, 7], 0, 0, 0⟩, ⟨none, [8], 0, 0, 0⟩] []).setProcState 1 .Ready with
              queues := (Kernel.mk (fun _ => .Suspended) (fun _ => 0) (fun _ => .Pending)
                [⟨none, [5, 6, 7], 0, 0, 0⟩, ⟨none, [8], 0, 0, 0⟩] []).queues.set i
                  { q with queue := q.queue ++ [1] } }, i)) :=
  ⟨by decide, rfl, enqueue_somewhere_c6 _ 1 (by decide) rfl⟩

/-- `next_ready_task` on a FIFO consisting of a block of `Suspended` entries
followed by a `Ready` entry pops that `Ready` entry, discarding the block. -/
lemma next_ready_task_split (ps : ProcessId → ProcessState) :
    ∀ (pre : List ProcessId) (n : ProcessId) (post : List ProcessId),
      (∀ x ∈ pre, ps x = .Suspended) → ps n = .Ready →
      next_ready_task ps (pre ++ n :: post) = .ok (some n, post)
  | [], n, post, _, hn => by simp [next_ready_task, hn]
  | x :: pre, n, post, hpre, hn => by
    have hx : ps x = .Suspended := hpre x (by simp)
    have ih := next_ready_task_split ps pre n post (fun y hy => hpre y (by simp [hy])) hn
    simpa [next_ready_task, hx] using ih

/-- Claim C1 (amended): `yield_cpu` (1) attributes the elapsed ticks
`t - measure_time` to `cpu_time` when a process was current and to `idle_time`
otherwise, (2) pushes the current process (if any) to the FIFO tail *without
changing its state*, (3) pops the next `Ready` process from the front,
silently discarding `Suspended` entries, and (4) installs it as `current` —
*without* marking it `Running` and without writing its owning-core field: the
resulting kernel differs from `k` only in the queue table (`procState` and
`procCpu` are those of `k` unchanged). -/
theorem yield_cpu_c1 (k : Kernel) (i t : Nat) (q : CpuQueueInner)
    (pre post : List ProcessId) (n : ProcessId)
    (hq : k.queues.get? i = some q)
    (hmt : q.measureTime ≤ t)
    (hsplit : q.queue ++ q.current.toList = pre ++ n :: post)
    (hpre : ∀ x ∈ pre, k.procState x = .Suspended)
    (hn : k.procState n = .Ready) :
    yield_cpu k i t = .ok { k with queues := k.queues.set i (
      { current := some n,
        queue := post,
        idleTime := q.idleTime + (if q.current.isSome then 0 else t - q.measureTime),
        cpuTime := q.cpuTime + (if q.current.isSome then t - q.measureTime else 0),
        measureTime := t }) } := by
  have hnr := next_ready_task_split k.procState pre n post hpre hn
  unfold yield_cpu
  rw [hq]
  cases hc : q.current with
  | none =>
    rw [hc, Option.toList_none, List.append_nil] at hsplit
    simp [hc, hsplit, hnr]
  | some c =>
    rw [hc, Option.toList_some] at hsplit
    simp [hc, hsplit, hnr]

/-- Counterexample for C1 as stated: on a queue whose current process 1 (with
owning-core field 7) is the only candidate, `yield_cpu` re-dispatches process 1
but leaves its state `Ready` and its owning-core field 7 — it does not mark it
`Running` on core 0 as the claim requires; and on a FIFO whose front entry is
`Terminated`, `yield_cpu` is a fatal halt instead of skipping the entry and
dispatching the `Ready` process behind it. -/
theorem yield_cpu_c1_counterexample :
    (match yield_cpu (Kernel.mk (fun _ => .Ready) (fun _ => 7) (fun _ => .Pending)
        [⟨some 1, [], 0, 0, 0⟩] []) 0 5 with
      | .ok k1 => some (k1.procState 1, k1.procCpu 1)
      | .error _ => none) = some (.Ready, 7)
    ∧ isErrB (yield_cpu (Kernel.mk (fun n => if n = 2 then .Terminated else .Ready)
        (fun _ => 0) (fun _ => .Pending) [⟨none, [2, 3], 0, 0, 0⟩] []) 0 5) = true :=
  ⟨rfl, rfl⟩

/-- Witness for the amended C1 on a queue with current process 1 and a
suspended process 4 ahead of it in the FIFO. -/
theorem yield_cpu_c1_witness :
    (Kernel.mk (fun m => if m = 4 then .Suspended else .Ready) (fun _ => 0) (fun _ => .Pending)
        [⟨some 1, [4], 0, 0, 2⟩] []).queues.get? 0 = some ⟨some 1, [4], 0, 0, 2⟩
    ∧ (⟨some 1, [4], 0, 0, 2⟩ : CpuQueueInner).measureTime ≤ 10
    ∧ (⟨some 1, [4], 0, 0, 2⟩ : CpuQueueInner).queue
        ++ (⟨some 1, [4], 0, 0, 2⟩ : CpuQueueInner).current.toList = [4] ++ 1 :: []
    ∧ (∀ x ∈ [4], (Kernel.mk (fun m => if m = 4 then .Suspended else .Ready) (fun _ => 0)
        (fun _ => .Pending) [⟨some 1, [4], 0, 0, 2⟩] []).procState x = .Suspended)
    ∧ yield_cpu (Kernel.mk (fun m => if m = 4 then .Suspended else .Ready) (fun _ => 0)
        (fun _ => .Pending) [⟨some 1, [4], 0, 0, 2⟩] []) 0 10
      = .ok { Kernel.mk (fun m => if m = 4 then .Suspended else .Ready) (fun _ => 0)
            (fun _ => .Pending) [⟨some 1, [4], 0, 0, 2⟩] [] with
          queues := (Kernel.mk (fun m => if m = 4 then .Suspended else .Ready) (fun _ => 0)
            (fun _ => .Pending) [⟨some 1, [4], 0, 0, 2⟩] []).queues.set 0 (
            { current := some 1,
              queue := [],
              idleTime := 0 + (if (some 1 : Option ProcessId).isSome then 0 else 10 - 2),
              cpuTime := 0 + (if (some 1 : Option ProcessId).isSome then 10 - 2 else 0),
              measureTime := 10 }) } :=
  ⟨rfl, by decide, rfl, by decide,
    yield_cpu_c1 (Kernel.mk (fun m => if m = 4 then .Suspended else .Ready) (fun _ => 0)
        (fun _ => .Pending) [⟨some 1, [4], 0, 0, 2⟩] [])
      0 10 ⟨some 1, [4], 0, 0, 2⟩ [4] [] 1 rfl (by decide) rfl (by decide) rfl⟩

/- ## Helper lemmas for the wakeup path -/

/-- Process `x` is present in the FIFO of some run queue. -/
def inSomeQueue (k : Kernel) (x : ProcessId) : Prop :=
  ∃ j qj, k.queues.get? j = some qj ∧ x ∈ qj.queue

/-- The tick-list scan removes a sublist (either nothing or one entry). -/
lemma remove_tick_entry_sublist (pid : ProcessId) :
    ∀ l : List (ProcessId × Nat), List.Sublist (remove_tick_entry pid l) l
  | [] => List.Sublist.refl []
  | e :: rest => by
    unfold remove_tick_entry
    by_cases h : e.1 = pid
    · simpa [h] using List.sublist_cons_self e rest
    · simpa [h] using List.Sublist.cons₂ e (remove_tick_entry_sublist pid rest)

/-- A process id absent from the tick list stays absent after a removal. -/
lemma remove_tick_entry_not_mem (pid x : ProcessId) (l : List (ProcessId × Nat))
    (hx : x ∉ l.map Prod.fst) : x ∉ (remove_tick_entry pid l).map Prod.fst :=
  fun hc => hx (((remove_tick_entry_sublist pid l).map Prod.fst).subset hc)

/-- Removal preserves distinctness of the listed process ids. -/
lemma remove_tick_entry_nodup (pid : ProcessId) (l : List (ProcessId × Nat))
    (h : (l.map Prod.fst).Nodup) : ((remove_tick_entry pid l).map Prod.fst).Nodup :=
  h.sublist ((remove_tick_entry_sublist pid l).map Prod.fst)

/-- When the tick list holds at most one entry per process id, removing the
entry of `pid` leaves no entry of `pid` behind. -/
lemma remove_tick_entry_self (pid : ProcessId) :
    ∀ l : List (ProcessId × Nat), (l.map Prod.fst).Nodup →
      pid ∉ (remove_tick_entry pid l).map Prod.fst
  | [], _ => by simp [remove_tick_entry]
  | e :: rest, hn => by
    have hn' : (e.1 :: rest.map Prod.fst).Nodup := by
      rw [List.map_cons] at hn
      exact hn
    have hn2 : e.1 ∉ rest.map Prod.fst ∧ (rest.map Prod.fst).Nodup := List.nodup_cons.mp hn'
    unfold remove_tick_entry
    by_cases h : e.1 = pid
    · simp only [if_pos h]
      rw [← h]
      exact hn2.1
    · simp only [if_neg h, List.map_cons]
      intro hc
      rcases List.mem_cons.mp hc with hc | hc
      · exact h hc.symm
      · exact remove_tick_entry_self pid rest hn2.2 hc

/-- `enqueue_somewhere` on a `Suspended` process with a nonempty queue table:
the process becomes `Ready` and lands in the FIFO of the selected queue; the
wait status, owning-core map, tick list and table size are untouched, and
every process already present in some FIFO stays present. -/
lemma enqueue_somewhere_suspended_facts (k : Kernel) (p : ProcessId)
    (hne : k.queues ≠ []) (hs : k.procState p = .Suspended) :
    ∃ k1 i, enqueue_somewhere k p = .ok (k1, i)
      ∧ k1.procState = (fun x => if x = p then ProcessState.Ready else k.procState x)
      ∧ k1.procCpu = k.procCpu
      ∧ k1.waitStatus = k.waitStatus
      ∧ k1.tickList = k.tickList
      ∧ k1.queues.length = k.queues.length
      ∧ inSomeQueue k1 p
      ∧ (∀ x, inSomeQueue k x → inSomeQueue k1 x) := by
  obtain ⟨i, q, hll, hget, hmin⟩ := least_loaded_spec k.queues hne
  have hilt : i < k.queues.length := (List.get?_eq_some.mp hget).1
  refine ⟨{ k.setProcState p .Ready with
      queues := k.queues.set i { q with queue := q.queue ++ [p] } }, i,
    ?_, rfl, rfl, rfl, rfl, by simp, ?_, ?_⟩
  · unfold enqueue_somewhere
    simp [hll, enqueue_to_suspended k p i q hget hs]
  · exact ⟨i, _, List.get?_set_eq_of_lt _ hilt, by simp⟩
  · rintro x ⟨j, qj, hj, hxj⟩
    by_cases hji : i = j
    · subst hji
      rw [hget] at hj
      cases hj
      exact ⟨i, _, List.get?_set_eq_of_lt _ hilt, by simp [hxj]⟩
    · exact ⟨j, qj, by rw [List.get?_set_ne _ _ hji]; exact hj, hxj⟩

/-- Full characterization of `wakeup_some`, by induction on the limit: exactly
`min limit n` processes are popped in FIFO order; each popped process has wait
status `Done`, state `Ready`, sits in some run-queue FIFO, and (when the tick
list had at most one entry per id) has no tick-list entry left; every other
process keeps its state and wait status; queue membership and tick-list
absence are preserved. -/
lemma wakeup_some_spec :
    ∀ (limit : Nat) (fifo : List ProcessId) (k : Kernel),
      k.queues ≠ [] →
      (∀ x ∈ fifo, k.procState x = .Suspended) →
      fifo.Nodup →
      ∃ k1, wakeup_some k fifo limit
          = .ok (k1, fifo.drop (min limit fifo.length), min limit fifo.length)
        ∧ k1.queues.length = k.queues.length
        ∧ (∀ x ∈ fifo.take (min limit fifo.length),
              k1.waitStatus x = .Done ∧ k1.procState x = .Ready ∧ inSomeQueue k1 x)
        ∧ (∀ y, y ∉ fifo.take (min limit fifo.length) →
              k1.procState y = k.procState y ∧ k1.waitStatus y = k.waitStatus y)
        ∧ (∀ x, inSomeQueue k x → inSomeQueue k1 x)
        ∧ (∀ x, x ∉ k.tickList.map Prod.fst → x ∉ k1.tickList.map Prod.fst)
        ∧ ((k.tickList.map Prod.fst).Nodup →
              (k1.tickList.map Prod.fst).Nodup
              ∧ ∀ x ∈ fifo.take (min limit fifo.length), x ∉ k1.tickList.map Prod.fst)
  | 0, fifo, k, _, _, _ => by
    refine ⟨k, by simp [wakeup_some], rfl, by simp, fun y _ => ⟨rfl, rfl⟩,
      fun x hx => hx, fun x hx => hx, fun hn => ⟨hn, by simp⟩⟩
  | l + 1, [], k, _, _, _ => by
    refine ⟨k, by simp [wakeup_some], rfl, by simp, fun y _ => ⟨rfl, rfl⟩,
      fun x hx => hx, fun x hx => hx, fun hn => ⟨hn, by simp⟩⟩
  | l + 1, p :: rest, k, hne, hall, hnd => by
    have hp : k.procState p = .Suspended := hall p (List.mem_cons_self p rest)
    have hpnotin : p ∉ rest := (List.nodup_cons.mp hnd).1
    have hndrest : rest.Nodup := (List.nodup_cons.mp hnd).2
    -- state after tick removal and wait-status update
    have h2ne : (({ k with tickList := remove_tick_entry p k.tickList
        }).setWaitStatus p .Done).queues ≠ [] := hne
    have h2s : (({ k with tickList := remove_tick_entry p k.tickList
        }).setWaitStatus p .Done).procState p = .Suspended := hp
    obtain ⟨k3, i, henq, hps, hpc, hws, htl, hlen3, hin3, hpres3⟩ :=
      enqueue_somewhere_suspended_facts
        (({ k with tickList := remove_tick_entry p k.tickList }).setWaitStatus p .Done)
        p h2ne h2s
    have hL : k3.queues.length = k.queues.length := hlen3
    have h3ne : k3.queues ≠ [] := by
      intro hc
      rw [hc] at hL
      exact hne (List.length_eq_zero.mp hL.symm)
    have hall3 : ∀ x ∈ rest, k3.procState x = .Suspended := by
      intro x hx
      have hxp : x ≠ p := fun hc => hpnotin (hc ▸ hx)
      rw [hps]
      simp only [if_neg hxp]
      exact hall x (List.mem_cons_of_mem p hx)
    obtain ⟨k4, heq4, hlen4, hwake4, hframe4, hpres4, htickpres4, hnodup4⟩ :=
      wakeup_some_spec l rest k3 h3ne hall3 hndrest
    have hk3frame : ∀ y, y ≠ p → k3.procState y = k.procState y ∧ k3.waitStatus y = k.waitStatus y := by
      intro y hy
      constructor
      · rw [hps]
        simp only [if_neg hy]
        rfl
      · rw [hws]
        show (if y = p then WaitStatus.Done else k.waitStatus y) = k.waitStatus y
        simp [if_neg hy]
    have htake : (p :: rest).take (min (l + 1) (p :: rest).length)
        = p :: rest.take (min l rest.length) := by
      simp [Nat.succ_min_succ]
    refine ⟨k4, ?_, ?_, ?_, ?_, ?_, ?_, ?_⟩
    · -- the run of wakeup_some
      show wakeup_some k (p :: rest) (l + 1) = _
      simp [wakeup_some, henq, heq4, Nat.succ_min_succ, List.drop_succ_cons]
    · exact hlen4.trans hlen3
    · -- conclusions for the popped processes
      intro x hx
      rw [htake] at hx
      rcases List.mem_cons.mp hx with hx | hx
      · subst hx
        have hxtake : x ∉ rest.take (min l rest.length) :=
          fun hc => hpnotin (List.take_subset _ _ hc)
        have hfr := hframe4 x hxtake
        refine ⟨?_, ?_, hpres4 x hin3⟩
        · rw [hfr.2, hws]
          show (if x = x then WaitStatus.Done else _) = WaitStatus.Done
          simp
        · rw [hfr.1, hps]
          simp
      · exact hwake4 x hx
    · -- frame for the untouched processes
      intro y hy
      rw [htake] at hy
      have hyp : y ≠ p := fun hc => hy (hc ▸ List.mem_cons_self _ _)
      have hyt : y ∉ rest.take (min l rest.length) :=
        fun hc => hy (List.mem_cons_of_mem _ hc)
      have hfr := hframe4 y hyt
      exact ⟨hfr.1.trans (hk3frame y hyp).1, hfr.2.trans (hk3frame y hyp).2⟩
    · -- queue-membership preservation
      intro x hx
      exact hpres4 x (hpres3 x hx)
    · -- tick-absence preservation
      intro x hx
      apply htickpres4 x
      rw [htl]
      exact remove_tick_entry_not_mem p x k.tickList hx
    · -- tick-list distinctness and removal of the popped entries
      intro hn
      have hn3 : (k3.tickList.map Prod.fst).Nodup := by
        rw [htl]
        exact remove_tick_entry_nodup p k.tickList hn
      refine ⟨(hnodup4 hn3).1, ?_⟩
      intro x hx
      rw [htake] at hx
      rcases List.mem_cons.mp hx with hx | hx
      · subst hx
        apply htickpres4 x
        rw [htl]
        exact remove_tick_entry_self x k.tickList hn
      · exact (hnodup4 hn3).2 x hx

/-- Claim C5: on a channel with FIFO `fifo` (n registered waiters, all
`Suspended`, distinct, with at most one tick-list entry per process),
`wakeup_some limit` pops exactly `min limit n` processes in registration
order — the FIFO keeps exactly the later registrants — and each popped
process has its tick-list entry removed, its wait outcome set to `Done`, and
is re-enqueued (now `Ready`) onto some run queue; the returned count is
`min limit n`.  Every process not popped keeps its state and wait status (in
particular, with waiters W1 then W2 and limit 1, exactly W1 is woken and W2
remains registered). -/
theorem wakeup_some_c5 (k : Kernel) (fifo : List ProcessId) (limit : Nat)
    (hne : k.queues ≠ [])
    (hall : ∀ x ∈ fifo, k.procState x = .Suspended)
    (hnd : fifo.Nodup)
    (htick : (k.tickList.map Prod.fst).Nodup) :
    ∃ k1, wakeup_some k fifo limit
        = .ok (k1, fifo.drop (min limit fifo.length), min limit fifo.length)
      ∧ (∀ x ∈ fifo.take (min limit fifo.length),
            k1.waitStatus x = .Done ∧ k1.procState x = .Ready ∧ inSomeQueue k1 x
            ∧ x ∉ k1.tickList.map Prod.fst)
      ∧ (∀ y, y ∉ fifo.take (min limit fifo.length) →
            k1.procState y = k.procState y ∧ k1.waitStatus y = k.waitStatus y) := by
  obtain ⟨k1, heq, _, hwake, hframe, _, _, hnod⟩ := wakeup_some_spec limit fifo k hne hall hnd
  refine ⟨k1, heq, ?_, hframe⟩
  intro x hx
  exact ⟨(hwake x hx).1, (hwake x hx).2.1, (hwake x hx).2.2, (hnod htick).2 x hx⟩

/-- Witness for C5, the spec scenario: waiters 1 (first) and 2 on the channel,
`wakeup_some 1` (= `wakeup_one`) wakes exactly waiter 1 and leaves waiter 2
registered. -/
theorem wakeup_some_c5_witness :
    (Kernel.mk (fun _ => .Suspended) (fun _ => 0) (fun _ => .Pending)
        [⟨none, [], 0, 0, 0⟩] [(1, 50)]).queues ≠ []
    ∧ (∀ x ∈ [1, 2], (Kernel.mk (fun _ => .Suspended) (fun _ => 0) (fun _ => .Pending)
        [⟨none, [], 0, 0, 0⟩] [(1, 50)]).procState x = .Suspended)
    ∧ ([1, 2] : List ProcessId).Nodup
    ∧ ((Kernel.mk (fun _ => .Suspended) (fun _ => 0) (fun _ => .Pending)
        [⟨none, [], 0, 0, 0⟩] [(1, 50)]).tickList.map Prod.fst).Nodup
    ∧ (∃ k1, wakeup_some (Kernel.mk (fun _ => .Suspended) (fun _ => 0) (fun _ => .Pending)
          [⟨none, [], 0, 0, 0⟩] [(1, 50)]) [1, 2] 1
        = .ok (k1, ([1, 2] : List ProcessId).drop (min 1 ([1, 2] : List ProcessId).length),
            min 1 ([1, 2] : List ProcessId).length)
      ∧ (∀ x ∈ ([1, 2] : List ProcessId).take (min 1 ([1, 2] : List ProcessId).length),
            k1.waitStatus x = .Done ∧ k1.procState x = .Ready ∧ inSomeQueue k1 x
            ∧ x ∉ k1.tickList.map Prod.fst)
      ∧ (∀ y, y ∉ ([1, 2] : List ProcessId).take (min 1 ([1, 2] : List ProcessId).length) →
            k1.procState y = (Kernel.mk (fun _ => .Suspended) (fun _ => 0) (fun _ => .Pending)
              [⟨none, [], 0, 0, 0⟩] [(1, 50)]).procState y
            ∧ k1.waitStatus y = (Kernel.mk (fun _ => .Suspended) (fun _ => 0) (fun _ => .Pending)
              [⟨none, [], 0, 0, 0⟩] [(1, 50)]).waitStatus y)) :=
  ⟨by decide, by decide, by decide, by decide,
    wakeup_some_c5 (Kernel.mk (fun _ => .Suspended) (fun _ => 0) (fun _ => .Pending)
        [⟨none, [], 0, 0, 0⟩] [(1, 50)]) [1, 2] 1
      (by decide) (by decide) (by decide) (by decide)⟩

/- ## Wait::wait with a deadline (kernel/src/proc/wait.rs:90-136) -/

/-- The channel-FIFO cursor scan of `Wait::wait` (wait.rs:121-130): remove the
first entry equal to `pid` (the loop returns immediately after removing). -/
def remove_first_waiter (pid : ProcessId) : List ProcessId → List ProcessId
  | [] => []
  | x :: rest => if x = pid then rest else x :: remove_first_waiter pid rest

/-- What the blocked process observes at one resumption from `suspend()`:
the wait status it will read at the next loop top, the timestamp read right
after re-acquiring the queue lock, and the channel FIFO contents at that
moment.  The wait loop itself only yields and re-reads shared state; the
observations are supplied by the environment (wakeups, ticks, the clock). -/
structure ResumeObs where
  status : WaitStatus
  now : Nat
  fifo : List ProcessId
deriving DecidableEq, Repr

/-- Outcome of a `Wait::wait(Some(deadline))` call: success (`Ok(())`), a
`TimedOut` error carrying the channel FIFO after self-removal, or a fatal
halt. -/
inductive WaitRes where
  | success
  | timedOut (fifoAfter : List ProcessId)
  | panicked (msg : String)
deriving DecidableEq, Repr

/-- The `loop` of `Wait::wait` (wait.rs:105-135), driven by the trace of
resumption observations.  At the loop top the wait status is matched
(`Done` returns success, `Interrupted` is `todo!()`, `Pending` falls through
to `suspend()`); after each resumption the deadline is checked *before* the
next status check: when `now > deadline` the process removes itself from the
channel FIFO and returns `TimedOut` if present, and panics if absent.
`none` means the trace ended with the process still blocked. -/
def wait_loop (pid : ProcessId) (deadline : Nat) :
    WaitStatus → List ResumeObs → Option WaitRes
  | .Done, _ => some .success
  | .Interrupted, _ => some (.panicked ("todo: Interrupted"))
  | .Pending, [] => none
  | .Pending, o :: restObs =>
    if deadline < o.now then
      if pid ∈ o.fifo then some (.timedOut (remove_first_waiter pid o.fifo))
      else some (.panicked ("deadline passed but process not in FIFO"))
    else wait_loop pid deadline o.status restObs

/-- `Wait::wait(Some(deadline))` for the calling process `pid`: the process is
appended to the channel FIFO and `setup_wait` resets its status to `Pending`,
so the loop starts from `Pending`. -/
def wait_with_deadline (pid : ProcessId) (deadline : Nat) (trace : List ResumeObs) :
    Option WaitRes :=
  wait_loop pid deadline .Pending trace

/-- Claim C4 (amended): on resumption the deadline check precedes the outcome
check.  If the deadline has passed, the process removes itself from the
channel FIFO and returns `TimedOut` when present, and traps when absent —
*even when the wait outcome is already `Done`*; only when the deadline has not
passed is the outcome consulted: `Done` returns success, `Interrupted` traps,
`Pending` suspends again. -/
theorem wait_c4 (pid deadline : Nat) (o : ResumeObs) (restObs : List ResumeObs) :
    (deadline < o.now → pid ∈ o.fifo →
        wait_with_deadline pid deadline (o :: restObs)
          = some (.timedOut (remove_first_waiter pid o.fifo)))
    ∧ (deadline < o.now → pid ∉ o.fifo →
        wait_with_deadline pid deadline (o :: restObs)
          = some (.panicked ("deadline passed but process not in FIFO")))
    ∧ (¬ deadline < o.now → o.status = .Done →
        wait_with_deadline pid deadline (o :: restObs) = some .success)
    ∧ (¬ deadline < o.now → o.status = .Interrupted →
        wait_with_deadline pid deadline (o :: restObs)
          = some (.panicked ("todo: Interrupted")))
    ∧ (¬ deadline < o.now → o.status = .Pending →
        wait_with_deadline pid deadline (o :: restObs)
          = wait_loop pid deadline .Pending restObs) := by
  refine ⟨?_, ?_, ?_, ?_, ?_⟩
  · intro hd hm
    simp [wait_with_deadline, wait_loop, hd, hm]
  · intro hd hm
    simp [wait_with_deadline, wait_loop, hd, hm]
  · intro hd hst
    simp [wait_with_deadline, wait_loop, hd, hst]
  · intro hd hst
    simp [wait_with_deadline, wait_loop, hd, hst]
  · intro hd hst
    simp [wait_with_deadline, wait_loop, hd, hst]

/-- Counterexample for C4 as stated: a waiter that resumes with wait outcome
`Done` after its deadline has passed (it was woken and removed from the FIFO,
but too late) hits the fatal-halt branch, not the success return the claim
promises for a `Done` outcome. -/
theorem wait_c4_counterexample :
    wait_with_deadline 1 10 [⟨.Done, 11, []⟩]
      = some (.panicked ("deadline passed but process not in FIFO"))
    ∧ wait_with_deadline 1 10 [⟨.Done, 11, []⟩] ≠ some .success := by
  exact ⟨rfl, by decide⟩

/-- Witness for the amended C4 at a concrete resumption: deadline 10, resumed
at time 11 while still in the FIFO — the timed-out self-removal path. -/
theorem wait_c4_witness :
    ((10 : Nat) < 11 → (1 : ProcessId) ∈ ([1] : List ProcessId) →
        wait_with_deadline 1 10 [⟨.Pending, 11, [1]⟩]
          = some (.timedOut (remove_first_waiter 1 [1])))
    ∧ ((10 : Nat) < 11 → (1 : ProcessId) ∉ ([1] : List ProcessId) →
        wait_with_deadline 1 10 [⟨.Pending, 11, [1]⟩]
          = some (.panicked ("deadline passed but process not in FIFO")))
    ∧ (¬ (10 : Nat) < 11 → WaitStatus.Pending = WaitStatus.Done →
        wait_with_deadline 1 10 [⟨.Pending, 11, [1]⟩] = some .success)
    ∧ (¬ (10 : Nat) < 11 → WaitStatus.Pending = WaitStatus.Interrupted →
        wait_with_deadline 1 10 [⟨.Pending, 11, [1]⟩] = some (.panicked ("todo: Interrupted")))
    ∧ (¬ (10 : Nat) < 11 → WaitStatus.Pending = WaitStatus.Pending →
        wait_with_deadline 1 10 [⟨.Pending, 11, [1]⟩] = wait_loop 1 10 .Pending []) :=
  wait_c4 1 10 ⟨.Pending, 11, [1]⟩ []

end OsdevX
